import Mathlib

/-!
# MatrixZulipBridge — verification of spec claims

Shallow embedding, in Lean 4, of the parts of the MatrixZulipBridge source
(`matrixzulipbridge/` python package) that the spec's claims are about,
together with proofs or refutations of those claims.

Conventions used throughout:
* Python dicts that are used as string-keyed tables are embedded as
  association lists (`List (κ × ν)`), with `lookup`/`upsert`/`eraseKey`
  helpers mirroring `d[k]`, `d[k] = v` and `del d[k]`.
* Python `None` becomes `Option.none`; Python truthiness of the values
  involved is embedded explicitly where a source line tests it.
* `asyncio` time is embedded as integer milliseconds.
* Exceptions become `Except`; a `try`/`except` becomes a `match` on it.
-/

namespace MZB

/-! ## Association-list helpers (embedding of Python dict operations) -/

/-- `d.get(k)` / `d[k]` lookup on a dict embedded as an association list. -/
def alookup {κ ν : Type} [DecidableEq κ] (m : List (κ × ν)) (k : κ) : Option ν :=
  match m with
  | [] => none
  | (k', v) :: rest => if k' = k then some v else alookup rest k

/-- `d[k] = v`: replace the binding if the key is present, else append. -/
def aupsert {κ ν : Type} [DecidableEq κ] (m : List (κ × ν)) (k : κ) (v : ν) :
    List (κ × ν) :=
  match m with
  | [] => [(k, v)]
  | (k', v') :: rest =>
      if k' = k then (k, v) :: rest else (k', v') :: aupsert rest k v

/-- `del d[k]`: remove the binding for `k` (all of them, for a dict at most one). -/
def aerase {κ ν : Type} [DecidableEq κ] (m : List (κ × ν)) (k : κ) : List (κ × ν) :=
  m.filter (fun p => p.1 ≠ k)

theorem alookup_aupsert {κ ν : Type} [DecidableEq κ]
    (m : List (κ × ν)) (k : κ) (v : ν) : alookup (aupsert m k v) k = some v := by
  induction m with
  | nil => simp [aupsert, alookup]
  | cons p rest ih =>
      obtain ⟨k', v'⟩ := p
      by_cases h : k' = k
      · simp [aupsert, h, alookup]
      · simp [aupsert, h, alookup, ih]

theorem alookup_aupsert_ne {κ ν : Type} [DecidableEq κ]
    (m : List (κ × ν)) (k k' : κ) (v : ν) (h : k ≠ k') :
    alookup (aupsert m k v) k' = alookup m k' := by
  induction m with
  | nil => simp [aupsert, alookup, h]
  | cons p rest ih =>
      obtain ⟨k0, v0⟩ := p
      by_cases hk : k0 = k
      · subst hk
        simp [aupsert, alookup, h]
      · simp [aupsert, hk, alookup, ih]

/-! ## C2 — OrganizationRoom exponential backoff

Embeds the backoff update performed at the bottom of the retry loop in
`OrganizationRoom._connect` (organization_room.py):

```
if self.backoff < 1800:
    self.backoff = self.backoff * 2
if self.backoff < 5:
    self.backoff = 5
...
self.backoff_task = asyncio.ensure_future(asyncio.sleep(self.backoff))
```

`backoff` starts at `0` (set in `OrganizationRoom.init`).  After the `N`-th
consecutive failure the room sleeps `backoffAfter N` seconds.
-/

/-- One execution of the two `if` statements updating `self.backoff` after a
failed connection attempt in `OrganizationRoom._connect`. -/
def backoffStep (b : Nat) : Nat :=
  let b1 := if b < 1800 then b * 2 else b
  if b1 < 5 then 5 else b1

/-- Value of `self.backoff` (the sleep just performed, in seconds) after `n`
consecutive failed attempts, starting from the initial `backoff = 0`. -/
def backoffAfter : Nat → Nat
  | 0 => 0
  | n + 1 => backoffStep (backoffAfter n)

/-- The delay formula asserted by the claim: `min(1800, max(5, 5*2^(N-1)))`. -/
def claimedBackoffDelay (n : Nat) : Nat :=
  min 1800 (max 5 (5 * 2 ^ (n - 1)))

theorem backoffAfter_closed (n : Nat) : backoffAfter (n + 1) = 5 * 2 ^ (min n 9) := by
  induction n with
  | zero => simp [backoffAfter, backoffStep]
  | succ n ih =>
      rw [show backoffAfter (n + 1 + 1) = backoffStep (backoffAfter (n + 1)) from rfl, ih]
      by_cases h : n ≤ 8
      · have hmin : min n 9 = n := by omega
        have hpow : 2 ^ n ≤ 2 ^ 8 := Nat.pow_le_pow_right (by norm_num) h
        have hlt : 5 * 2 ^ n < 1800 := by
          calc 5 * 2 ^ n ≤ 5 * 2 ^ 8 := by omega
          _ < 1800 := by norm_num
        have hge : ¬ 5 * 2 ^ n * 2 < 5 := by
          have : 1 ≤ 2 ^ n := Nat.one_le_two_pow
          omega
        have hmin' : min (n + 1) 9 = n + 1 := by omega
        simp only [backoffStep, hmin, hmin', if_pos hlt, if_neg hge]
        ring
      · have hmin : min n 9 = 9 := by omega
        have hmin' : min (n + 1) 9 = 9 := by omega
        simp [backoffStep, hmin, hmin']

/-- C2 counterexample: on the 10th consecutive failure the code sleeps 2560
seconds, while the claim's formula `min(1800, max(5, 5*2^(N-1)))` says 1800;
in particular the code's delay exceeds the claimed 1800-second ceiling. -/
theorem backoff_counterexample :
    backoffAfter 10 = 2560 ∧ claimedBackoffDelay 10 = 1800 ∧
      backoffAfter 10 ≠ claimedBackoffDelay 10 ∧ 1800 < backoffAfter 10 := by
  refine ⟨?_, ?_, ?_, ?_⟩ <;> decide

/-- C2 (amended): after `N ≥ 1` consecutive failures the delay before the next
attempt is `max(5, min(2560, 5*2^(N-1)))` seconds — the doubling rule starting
at 5 s, except that the cap is 2560 s (the check `backoff < 1800` doubles
1280 into 2560 before stopping), not 1800 s.  Every delay is at least 5 s and
at most 2560 s. -/
theorem backoff_delay_amended (n : Nat) :
    backoffAfter (n + 1) = max 5 (min 2560 (5 * 2 ^ n)) ∧
      5 ≤ backoffAfter (n + 1) ∧ backoffAfter (n + 1) ≤ 2560 := by
  have h := backoffAfter_closed n
  by_cases hn : n ≤ 9
  · have hmin : min n 9 = n := by omega
    rw [hmin] at h
    have hpow : 2 ^ n ≤ 2 ^ 9 := Nat.pow_le_pow_right (by norm_num) hn
    have h1 : 5 * 2 ^ n ≤ 2560 := by omega
    have h2 : 5 ≤ 5 * 2 ^ n := by
      have : 1 ≤ 2 ^ n := Nat.one_le_two_pow
      omega
    rw [h]
    omega
  · have hmin : min n 9 = 9 := by omega
    rw [hmin] at h
    have hpow : 2 ^ 10 ≤ 2 ^ n := Nat.pow_le_pow_right (by norm_num) (by omega)
    have : (2 : Nat) ^ 10 = 1024 := by norm_num
    rw [h]
    constructor
    · omega
    · norm_num

/-! ## C1 — config round-trip (`from_config` / `to_config`)

Embeds the persisted state of `OrganizationRoom` (organization_room.py) and of
`DirectRoom` (direct_room.py, including the `Room`/`UnderOrganizationRoom`
base fields) together with their `to_config` and `from_config` methods.

`to_config` always emits every key, so the config produced by `to_config` is
embedded as a record with all fields present; the `"key" in config` presence
checks of `from_config` therefore all succeed on such a config, while the
Python truthiness guards (`and config["key"]`) are kept explicit.
`from_config` is always invoked on a freshly constructed room, i.e. on the
field values assigned in `init()`.
-/

/-- The `OrganizationRoom` fields listed in its `to_config`. -/
structure OrgState where
  name : Option String
  api_key : Option String
  email : Option String
  site : Option String
  /-- `messages: dict[str, str]` — zulip message id to matrix event id. -/
  messages : List (String × String)
  max_backfill_amount : Nat
  /-- `zulip_puppet_login: dict[UserID, dict]`, login blob kept opaque. -/
  zulip_puppet_login : List (String × String)
deriving DecidableEq

/-- Field values assigned in `OrganizationRoom.init` before any config load. -/
def orgInit : OrgState :=
  { name := none, api_key := none, email := none, site := none,
    messages := [], max_backfill_amount := 100, zulip_puppet_login := [] }

/-- The dict produced by `OrganizationRoom.to_config` (every key present). -/
structure OrgConfig where
  name : Option String
  api_key : Option String
  email : Option String
  site : Option String
  messages : List (String × String)
  max_backfill_amount : Nat
  zulip_puppet_login : List (String × String)
deriving DecidableEq

/-- `OrganizationRoom.to_config`. -/
def orgToConfig (s : OrgState) : OrgConfig :=
  { name := s.name, api_key := s.api_key, email := s.email, site := s.site,
    messages := s.messages, max_backfill_amount := s.max_backfill_amount,
    zulip_puppet_login := s.zulip_puppet_login }

/-- Python truthiness of an optional string (`None` and `""` are falsy). -/
def truthyStr : Option String → Bool
  | none => false
  | some s => !s.isEmpty

/-- `OrganizationRoom.from_config`, applied to a freshly `init`-ed room and a
config in which every key is present (as produced by `to_config`).  Each
`if "k" in config and config["k"]:` guard keeps the `init` value when the
stored value is falsy. -/
def orgFromConfig (c : OrgConfig) : OrgState :=
  let s := orgInit
  let s := { s with name := c.name }
  let s := if truthyStr c.api_key then { s with api_key := c.api_key } else s
  let s := if truthyStr c.email then { s with email := c.email } else s
  let s := if truthyStr c.site then { s with site := c.site } else s
  let s := if !c.messages.isEmpty then { s with messages := c.messages } else s
  let s := if c.max_backfill_amount != 0 then
    { s with max_backfill_amount := c.max_backfill_amount } else s
  let s := if !c.zulip_puppet_login.isEmpty then
    { s with zulip_puppet_login := c.zulip_puppet_login } else s
  s

/-- An `OrganizationRoom` state reachable by configuring an organization and
issuing `BACKFILL 0` (documented as "0 to disable backfilling", and honoured
by the `backfill_messages` guards). -/
def orgBackfillZero : OrgState :=
  { name := some "acme", api_key := some "key", email := some "bot@acme",
    site := some "https://acme.zulipchat.com", messages := [("1", "$e1")],
    max_backfill_amount := 0, zulip_puppet_login := [] }

/-- C1: the round trip `from_config(to_config(x))` does **not** restore an
`OrganizationRoom` whose `max_backfill_amount` was set to `0`: the truthiness
guard `if "max_backfill_amount" in config and config["max_backfill_amount"]:`
drops the stored `0` and the field reverts to the `init()` default `100`.
Every other field of this state is restored. -/
theorem org_roundtrip_drops_backfill_zero :
    orgFromConfig (orgToConfig orgBackfillZero) ≠ orgBackfillZero ∧
      (orgFromConfig (orgToConfig orgBackfillZero)).max_backfill_amount = 100 ∧
      orgBackfillZero.max_backfill_amount = 0 ∧
      orgFromConfig (orgToConfig orgBackfillZero) =
        { orgBackfillZero with max_backfill_amount := 100 } := by
  refine ⟨?_, ?_, ?_, ?_⟩ <;> decide

/-! ## C3 — EventQueue debounced batching

Embeds `EventQueue` (event_queue.py).  Time is in integer milliseconds; the
debounce timer is 100 ms (`call_later(0.1, ...)`) and the forced flush fires
when an enqueue happens at least 500 ms after the first buffered event
(`if now >= self._start + 0.5`).  A flush hands the whole buffer, in order, to
the consumer; the serial worker (`_run`) drains flush batches one at a time in
submission order, so the consumer-visible history is the list of batches in
flush order, embedded as the `flushed` field.
-/

/-- State of one `EventQueue`: the in-memory buffer (`self._events`), the
timestamp of the first buffered event (`self._start`), the pending debounce
timer deadline (`self._timer`), and the batches already handed to the
consumer, in order (`self._chain` as consumed by `_run`). -/
structure EQState (α : Type) where
  events : List α
  start : Nat
  timer : Option Nat
  flushed : List (List α)
deriving DecidableEq

def eqInit {α : Type} : EQState α :=
  { events := [], start := 0, timer := none, flushed := [] }

/-- `EventQueue._flush`: hand the buffer to the consumer as one batch. -/
def eqFlush {α : Type} (s : EQState α) : EQState α :=
  { events := [], start := s.start, timer := none, flushed := s.flushed ++ [s.events] }

/-- `EventQueue.enqueue(event)` called at loop time `t` ms. -/
def eqEnqueue {α : Type} (t : Nat) (e : α) (s : EQState α) : EQState α :=
  -- always cancel timer when we enqueue
  let s1 : EQState α := { s with timer := none }
  -- stamp start time when we queue first event, always append event
  let st := if s1.events.isEmpty then t else s1.start
  let s2 : EQState α := { s1 with start := st, events := s1.events ++ [e] }
  -- if we have bumped ourself for half a second, flush now
  if s2.start + 500 ≤ t then eqFlush s2
  else { s2 with timer := some (t + 100) }

/-- The debounce timer fires (calling `_flush`) if its deadline has passed
before the next enqueue at time `t`. -/
def eqFire {α : Type} (t : Nat) (s : EQState α) : EQState α :=
  match s.timer with
  | some d => if d ≤ t then eqFlush s else s
  | none => s

/-- Process one timestamped enqueue: any due timer fires first. -/
def eqStep {α : Type} (s : EQState α) (x : Nat × α) : EQState α :=
  eqEnqueue x.1 x.2 (eqFire x.1 s)

/-- After the last enqueue, let any pending debounce timer fire. -/
def eqFinish {α : Type} (s : EQState α) : EQState α :=
  match s.timer with
  | some _ => eqFlush s
  | none => s

/-- Run a whole timestamped enqueue history through the queue. -/
def eqRun {α : Type} (input : List (Nat × α)) : EQState α :=
  eqFinish (input.foldl eqStep eqInit)

/-- All events ever enqueued, in order: delivered batches then the buffer. -/
def eqJoin {α : Type} (s : EQState α) : List α :=
  s.flushed.flatten ++ s.events

theorem eqJoin_eqFlush {α : Type} (s : EQState α) : eqJoin (eqFlush s) = eqJoin s := by
  simp [eqJoin, eqFlush]

theorem eqJoin_eqFire {α : Type} (t : Nat) (s : EQState α) :
    eqJoin (eqFire t s) = eqJoin s := by
  unfold eqFire
  match h : s.timer with
  | some d =>
      by_cases hd : d ≤ t <;> simp [hd, eqJoin_eqFlush]
  | none => rfl

theorem eqJoin_eqEnqueue {α : Type} (t : Nat) (e : α) (s : EQState α) :
    eqJoin (eqEnqueue t e s) = eqJoin s ++ [e] := by
  unfold eqEnqueue
  by_cases h : (if s.events.isEmpty then t else s.start) + 500 ≤ t <;>
    simp [h, eqJoin, eqFlush]

theorem eqJoin_eqStep {α : Type} (s : EQState α) (x : Nat × α) :
    eqJoin (eqStep s x) = eqJoin s ++ [x.2] := by
  unfold eqStep
  rw [eqJoin_eqEnqueue, eqJoin_eqFire]

theorem eqJoin_foldl {α : Type} (input : List (Nat × α)) (s : EQState α) :
    eqJoin (input.foldl eqStep s) = eqJoin s ++ input.map Prod.snd := by
  induction input generalizing s with
  | nil => simp
  | cons x rest ih =>
      simp only [List.foldl_cons, List.map_cons, ih, eqJoin_eqStep, List.append_assoc,
        List.singleton_append]

/-- Buffer-nonempty states always have a pending timer. -/
def eqTimed {α : Type} (s : EQState α) : Prop :=
  s.events ≠ [] → s.timer.isSome

theorem eqTimed_eqStep {α : Type} (s : EQState α) (x : Nat × α) :
    eqTimed (eqStep s x) := by
  unfold eqStep eqEnqueue
  by_cases h :
      (if (eqFire x.1 s).events.isEmpty then x.1 else (eqFire x.1 s).start) + 500 ≤ x.1 <;>
    simp [h, eqTimed, eqFlush]

theorem eqTimed_foldl {α : Type} (input : List (Nat × α)) (s : EQState α)
    (hs : eqTimed s) : eqTimed (input.foldl eqStep s) := by
  induction input generalizing s with
  | nil => exact hs
  | cons x rest ih => exact ih _ (eqTimed_eqStep _ _)

theorem eqFinish_events {α : Type} (s : EQState α) (hs : eqTimed s) :
    (eqFinish s).events = [] := by
  unfold eqFinish
  match h : s.timer with
  | some d => simp [eqFlush]
  | none =>
      by_cases he : s.events = []
      · simpa using he
      · have := hs he
        rw [h] at this
        simp at this

theorem eqJoin_eqFinish {α : Type} (s : EQState α) : eqJoin (eqFinish s) = eqJoin s := by
  unfold eqFinish
  match h : s.timer with
  | some d => simp [eqJoin_eqFlush]
  | none => rfl

/-- No event is dropped or reordered, for every enqueue history. -/
theorem eqRun_no_loss {α : Type} (input : List (Nat × α)) :
    (eqRun input).flushed.flatten = input.map Prod.snd ∧ (eqRun input).events = [] := by
  have hev : (eqRun input).events = [] :=
    eqFinish_events _ (eqTimed_foldl _ eqInit (by simp [eqTimed, eqInit]))
  refine ⟨?_, hev⟩
  have hj : eqJoin (eqRun input) = input.map Prod.snd := by
    unfold eqRun
    rw [eqJoin_eqFinish, eqJoin_foldl]
    simp [eqJoin, eqInit]
  rw [eqJoin, hev, List.append_nil] at hj
  exact hj

/-- Consecutive gaps all shorter than the 100 ms debounce window. -/
def gapsOk (last : Nat) : List Nat → Bool
  | [] => true
  | t :: ts => decide (t < last + 100) && gapsOk t ts

/-- All timestamps less than 500 ms after the first buffered event. -/
def spanOk (t1 : Nat) : List Nat → Bool
  | [] => true
  | t :: ts => decide (t < t1 + 500) && spanOk t1 ts

/-- Consecutive gaps all longer than the 100 ms debounce window. -/
def apartOk (last : Nat) : List Nat → Bool
  | [] => true
  | t :: ts => decide (last + 100 < t) && apartOk t ts

/-- A history whose consecutive gaps all exceed the debounce window. -/
def apartList {α : Type} : List (Nat × α) → Bool
  | [] => true
  | (t, _) :: rest => apartOk t (rest.map Prod.fst)

/-- Last element of a list of timestamps, with a fallback. -/
def lastD (last : Nat) : List Nat → Nat
  | [] => last
  | t :: ts => lastD t ts

theorem eqRun_within_aux {α : Type} (rest : List (Nat × α)) :
    ∀ (buf : List α) (F : List (List α)) (t1 last : Nat),
      gapsOk last (rest.map Prod.fst) = true →
      spanOk t1 (rest.map Prod.fst) = true →
      buf ≠ [] →
      rest.foldl eqStep
          { events := buf, start := t1, timer := some (last + 100), flushed := F } =
        { events := buf ++ rest.map Prod.snd, start := t1,
          timer := some (lastD last (rest.map Prod.fst) + 100), flushed := F } := by
  induction rest with
  | nil => intro buf F t1 last _ _ _; simp [lastD]
  | cons x rest ih =>
      intro buf F t1 last hg hs hbuf
      obtain ⟨t, e⟩ := x
      simp only [List.map_cons, gapsOk, spanOk, Bool.and_eq_true, decide_eq_true_eq] at hg hs
      have hfire : eqFire t ⟨buf, t1, some (last + 100), F⟩ =
          (⟨buf, t1, some (last + 100), F⟩ : EQState α) := by
        simp [eqFire]
        omega
      have henq : eqEnqueue t e ⟨buf, t1, some (last + 100), F⟩ =
          (⟨buf ++ [e], t1, some (t + 100), F⟩ : EQState α) := by
        unfold eqEnqueue
        have hne : buf.isEmpty = false := by
          cases buf with
          | nil => exact absurd rfl hbuf
          | cons a l => rfl
        simp only [hne]
        have : ¬ t1 + 500 ≤ t := by omega
        simp [this]
      simp only [List.foldl_cons, eqStep, hfire, henq, List.map_cons, lastD]
      rw [ih (buf ++ [e]) F t1 t hg.2 hs.2 (by simp)]
      simp [lastD]

/-- Events all within the debounce window produce exactly one batch. -/
theorem eqRun_single_batch {α : Type} (t1 : Nat) (e1 : α) (rest : List (Nat × α))
    (hg : gapsOk t1 (rest.map Prod.fst) = true)
    (hs : spanOk t1 (rest.map Prod.fst) = true) :
    (eqRun ((t1, e1) :: rest)).flushed = [((t1, e1) :: rest).map Prod.snd] := by
  unfold eqRun
  have hfirst : eqStep eqInit (t1, e1) =
      { events := [e1], start := t1, timer := some (t1 + 100), flushed := [] } := by
    unfold eqStep eqFire eqInit eqEnqueue
    simp
  rw [List.foldl_cons, hfirst,
    eqRun_within_aux rest [e1] [] t1 t1 hg hs (by simp)]
  simp [eqFinish, eqFlush]

theorem eqRun_apart_aux {α : Type} (rest : List (Nat × α)) :
    ∀ (s0 last : Nat) (elast : α) (F : List (List α)),
      apartOk last (rest.map Prod.fst) = true →
      (eqFinish (rest.foldl eqStep
          { events := [elast], start := s0, timer := some (last + 100),
            flushed := F })).flushed =
        F ++ [elast] :: rest.map (fun x => [x.2]) := by
  induction rest with
  | nil => intro s0 last elast F _; simp [eqFinish, eqFlush]
  | cons x rest ih =>
      intro s0 last elast F hap
      obtain ⟨t, e⟩ := x
      simp only [List.map_cons, apartOk, Bool.and_eq_true, decide_eq_true_eq] at hap
      have hfire : eqFire t ⟨[elast], s0, some (last + 100), F⟩ =
          (⟨[], s0, none, F ++ [[elast]]⟩ : EQState α) := by
        have : last + 100 ≤ t := by omega
        simp [eqFire, this, eqFlush]
      have henq : eqEnqueue t e ⟨[], s0, none, F ++ [[elast]]⟩ =
          (⟨[e], t, some (t + 100), F ++ [[elast]]⟩ : EQState α) := by
        unfold eqEnqueue
        simp
      simp only [List.foldl_cons, eqStep, hfire, henq, List.map_cons]
      rw [ih t t e (F ++ [[elast]]) hap.2]
      simp

/-- Events spaced farther apart than the debounce window are each delivered
in their own batch, in order. -/
theorem eqRun_apart {α : Type} (input : List (Nat × α))
    (hap : apartList input = true) :
    (eqRun input).flushed = input.map (fun x => [x.2]) := by
  match input with
  | [] => simp [eqRun, eqFinish, eqInit]
  | (t1, e1) :: rest =>
      unfold eqRun
      have hfirst : eqStep eqInit (t1, e1) =
          { events := [e1], start := t1, timer := some (t1 + 100), flushed := [] } := by
        unfold eqStep eqFire eqInit eqEnqueue
        simp
      rw [List.foldl_cons, hfirst, eqRun_apart_aux rest t1 t1 e1 [] hap]
      simp

/-- C3: (i) for every sequence of timestamped events enqueued on one
`EventQueue`, the concatenation of the batches seen by the consumer is exactly
the events in enqueue order and the buffer drains — nothing is dropped or
reordered; (ii) events all within the debounce window (gaps < 100 ms, span
< 500 ms) are delivered as exactly one batch in enqueue order; (iii) events
spaced farther apart than the debounce window are delivered as one batch each,
in enqueue order. -/
theorem eventQueue_debounce_claim {α : Type} :
    (∀ input : List (Nat × α),
        (eqRun input).flushed.flatten = input.map Prod.snd ∧ (eqRun input).events = []) ∧
    (∀ (t1 : Nat) (e1 : α) (rest : List (Nat × α)),
        gapsOk t1 (rest.map Prod.fst) = true →
        spanOk t1 (rest.map Prod.fst) = true →
        (eqRun ((t1, e1) :: rest)).flushed = [((t1, e1) :: rest).map Prod.snd]) ∧
    (∀ input : List (Nat × α), apartList input = true →
        (eqRun input).flushed = input.map (fun x => [x.2])) :=
  ⟨eqRun_no_loss, eqRun_single_batch, eqRun_apart⟩

/-- C3 witness: a two-event burst 30 ms apart flushes as one batch; two events
200 ms apart flush as two singleton batches. -/
theorem eventQueue_debounce_claim_witness :
    (eqRun ((0, (10 : Nat)) :: [(30, 20)])).flushed =
        [((0, (10 : Nat)) :: [(30, 20)]).map Prod.snd] ∧
      (eqRun [(0, (10 : Nat)), (200, 20)]).flushed =
        [(0, (10 : Nat)), (200, 20)].map (fun x => [x.2]) :=
  ⟨eventQueue_debounce_claim.2.1 0 10 [(30, 20)] (by decide) (by decide),
   eventQueue_debounce_claim.2.2 [(0, 10), (200, 20)] (by decide)⟩

/-! ## C4 — reaction table vs. reference model

Code side (embedded from the source):
* an inbound Zulip `reaction` `add` event ends up, via
  `ZulipEventHandler._handle_reaction` and the queued `_zulip_react` event in
  `DirectRoom._flush_event`, inserting `reactions[event_id] = frozenset({message_id, emoji_name, user_id})`
  unless that signature is already present (`self.reactions.inverse.get(frozen_request) is not None`);
* an inbound `remove` event looks the signature up in `reactions.inverse`,
  drops the event if absent, else redacts and `del room.reactions[event_id]`.

The reference model required by the spec is a map keyed by the
`(message-id, emoji-name, user-id)` triple.
-/

/-- The reaction identity triple (`frozen_request` in the source). -/
structure ReactionSig where
  message_id : String
  emoji_name : String
  user_id : String
deriving DecidableEq

/-- One inbound Zulip reaction event: `op == "add"` (with the Matrix event id
the relayed reaction will get) or `op == "remove"`. -/
inductive ReactionOp where
  | add (sig : ReactionSig) (event_id : String)
  | remove (sig : ReactionSig)
deriving DecidableEq

/-- Swap a `reactions` entry into its inverse-table orientation. -/
def flipPair {κ ν : Type} (p : κ × ν) : ν × κ := (p.2, p.1)

/-- `self.reactions.inverse.get(sig)` on the bidict embedded as a list of
`(event_id, signature)` pairs. -/
def reactionsInv (r : List (String × ReactionSig)) (sig : ReactionSig) : Option String :=
  alookup (r.map flipPair) sig

/-- Effect of one inbound reaction event on `room.reactions`, embedded from
`ZulipEventHandler._handle_reaction` (zulip.py) and the `_zulip_react` branch
of `DirectRoom._flush_event` (direct_room.py). -/
def codeReactionStep (r : List (String × ReactionSig)) (op : ReactionOp) :
    List (String × ReactionSig) :=
  match op with
  | .add sig e =>
      -- "Check if this reaction has already been relayed"
      if (reactionsInv r sig).isSome then r else r ++ [(e, sig)]
  | .remove sig =>
      match reactionsInv r sig with
      | none => r
      | some e => r.filter (fun p => p.1 ≠ e)

/-- Final `room.reactions` after a sequence of inbound reaction events. -/
def codeReactions (ops : List ReactionOp) : List (String × ReactionSig) :=
  ops.foldl codeReactionStep []

/-- Modelled from the spec: the reference model is "a map keyed by
`(message-id, emoji-name, user-id)`" — an add records the relayed Matrix event
id under the triple, a remove deletes the triple's entry. -/
def modelReactionStep (m : List (ReactionSig × String)) (op : ReactionOp) :
    List (ReactionSig × String) :=
  match op with
  | .add sig e => if (alookup m sig).isSome then m else m ++ [(sig, e)]
  | .remove sig => aerase m sig

/-- Final reference-model map after a sequence of inbound reaction events. -/
def modelReactions (ops : List ReactionOp) : List (ReactionSig × String) :=
  ops.foldl modelReactionStep []

/-- Matrix event ids carried by the `add` events of a sequence. -/
def addEventIds : List ReactionOp → List String
  | [] => []
  | .add _ e :: rest => e :: addEventIds rest
  | .remove _ :: rest => addEventIds rest

/-- Every `remove` is preceded by an `add` of the same signature. -/
def removesCovered (seen : List ReactionSig) : List ReactionOp → Bool
  | [] => true
  | .add sig _ :: rest => removesCovered (sig :: seen) rest
  | .remove sig :: rest => seen.contains sig && removesCovered seen rest

theorem alookup_eq_none_iff {κ ν : Type} [DecidableEq κ]
    (m : List (κ × ν)) (k : κ) :
    alookup m k = none ↔ k ∉ m.map Prod.fst := by
  induction m with
  | nil => simp [alookup]
  | cons p rest ih =>
      obtain ⟨k', v⟩ := p
      by_cases h : k' = k
      · subst h
        simp [alookup]
      · have h' : ¬ k = k' := fun e => h e.symm
        simp [alookup, h, ih, h']

theorem alookup_some_mem {κ ν : Type} [DecidableEq κ]
    {m : List (κ × ν)} {k : κ} {v : ν} (h : alookup m k = some v) : (k, v) ∈ m := by
  induction m with
  | nil => simp [alookup] at h
  | cons p rest ih =>
      obtain ⟨k', v'⟩ := p
      by_cases hk : k' = k
      · subst hk
        simp [alookup] at h
        simp [h]
      · simp [alookup, hk] at h
        simp [ih h]

theorem aerase_of_not_mem {κ ν : Type} [DecidableEq κ]
    (m : List (κ × ν)) (k : κ) (h : k ∉ m.map Prod.fst) : aerase m k = m := by
  induction m with
  | nil => rfl
  | cons p rest ih =>
      simp only [List.map_cons, List.mem_cons, not_or] at h
      simp [aerase, List.filter_cons, Ne.symm h.1]
      have := ih h.2
      simpa [aerase] using this

theorem nodup_keys_eq {κ ν : Type} [DecidableEq κ]
    {l : List (κ × ν)} (hnd : (l.map Prod.fst).Nodup) :
    ∀ p ∈ l, ∀ q ∈ l, p.1 = q.1 → p = q := by
  induction l with
  | nil => intro p hp; simp at hp
  | cons a rest ih =>
      simp only [List.map_cons, List.nodup_cons] at hnd
      intro p hp q hq hpq
      rcases List.mem_cons.mp hp with hp1 | hp2 <;>
        rcases List.mem_cons.mp hq with hq1 | hq2
      · rw [hp1, hq1]
      · exfalso
        apply hnd.1
        rw [hp1] at hpq
        rw [hpq]
        exact List.mem_map_of_mem Prod.fst hq2
      · exfalso
        apply hnd.1
        rw [hq1] at hpq
        rw [← hpq]
        exact List.mem_map_of_mem Prod.fst hp2
      · exact ih hnd.2 p hp2 q hq2 hpq

theorem filter_flip {κ ν : Type} (r : List (κ × ν)) (p : ν → Bool) :
    (r.map flipPair).filter (fun q => p q.1) =
      (r.filter (fun q => p q.2)).map flipPair := by
  induction r with
  | nil => rfl
  | cons a rest ih =>
      by_cases h : p a.2 <;> simp [List.filter_cons, flipPair, h, ih]

theorem reaction_refines_aux (ops : List ReactionOp) :
    ∀ r : List (String × ReactionSig),
      (addEventIds ops).Nodup →
      (∀ e ∈ r.map Prod.fst, e ∉ addEventIds ops) →
      (r.map Prod.fst).Nodup →
      (r.map Prod.snd).Nodup →
      ops.foldl modelReactionStep (r.map flipPair) =
        (ops.foldl codeReactionStep r).map flipPair := by
  induction ops with
  | nil => intro r _ _ _ _; rfl
  | cons op rest ih =>
      intro r hids hfresh hkeys hvals
      have hflipkeys : (r.map flipPair).map Prod.fst = r.map Prod.snd := by
        rw [List.map_map]
        rfl
      match op with
      | .add sig e =>
          simp only [addEventIds, List.nodup_cons] at hids
          match hpres : reactionsInv r sig with
          | some x =>
              have hx : alookup (r.map flipPair) sig = some x := hpres
              have hm : modelReactionStep (r.map flipPair) (.add sig e) =
                  r.map flipPair := by
                simp [modelReactionStep, hx]
              have hc : codeReactionStep r (.add sig e) = r := by
                simp [codeReactionStep, hpres]
              rw [List.foldl_cons, List.foldl_cons, hm, hc]
              exact ih r hids.2 (fun e' he' => fun hmem =>
                hfresh e' he' (List.mem_cons_of_mem _ hmem)) hkeys hvals
          | none =>
              have hx : alookup (r.map flipPair) sig = none := hpres
              have hm : modelReactionStep (r.map flipPair) (.add sig e) =
                  (r ++ [(e, sig)]).map flipPair := by
                simp [modelReactionStep, hx, flipPair]
              have hc : codeReactionStep r (.add sig e) = r ++ [(e, sig)] := by
                simp [codeReactionStep, hpres]
              rw [List.foldl_cons, List.foldl_cons, hm, hc]
              have hnotkeys : e ∉ r.map Prod.fst := fun hmem =>
                hfresh e hmem (List.mem_cons_self _ _)
              have hnotvals : sig ∉ r.map Prod.snd := by
                have := (alookup_eq_none_iff (r.map flipPair) sig).mp hx
                rw [hflipkeys] at this
                exact this
              refine ih (r ++ [(e, sig)]) hids.2 ?_ ?_ ?_
              · intro e' he'
                simp only [List.map_append, List.mem_append] at he'
                rcases he' with h1 | h2
                · exact fun hmem => hfresh e' h1 (List.mem_cons_of_mem _ hmem)
                · simp at h2
                  rw [h2]
                  exact hids.1
              · simp only [List.map_append, List.nodup_append]
                exact ⟨hkeys, by simp, by simpa using hnotkeys⟩
              · simp only [List.map_append, List.nodup_append]
                exact ⟨hvals, by simp, by simpa using hnotvals⟩
      | .remove sig =>
          simp only [addEventIds] at hids
          have hfresh' : ∀ e' ∈ r.map Prod.fst, e' ∉ addEventIds rest := by
            intro e' he'
            have := hfresh e' he'
            simpa [addEventIds] using this
          match hlook : reactionsInv r sig with
          | none =>
              have hx : alookup (r.map flipPair) sig = none := hlook
              have hm : modelReactionStep (r.map flipPair) (.remove sig) =
                  r.map flipPair := by
                simp only [modelReactionStep]
                exact aerase_of_not_mem _ _ ((alookup_eq_none_iff _ _).mp hx)
              have hc : codeReactionStep r (.remove sig) = r := by
                simp [codeReactionStep, hlook]
              rw [List.foldl_cons, List.foldl_cons, hm, hc]
              exact ih r hids hfresh' hkeys hvals
          | some e =>
              have hx : alookup (r.map flipPair) sig = some e := hlook
              have hpair : (e, sig) ∈ r := by
                have hmm := alookup_some_mem hx
                simp only [List.mem_map] at hmm
                obtain ⟨⟨p1, p2⟩, hp, hpe⟩ := hmm
                simp only [flipPair, Prod.mk.injEq] at hpe
                rw [← hpe.1, ← hpe.2]
                exact hp
              have val_unique : ∀ p ∈ r, ∀ q ∈ r, p.2 = q.2 → p = q := by
                have hnd' : ((r.map flipPair).map Prod.fst).Nodup := by
                  rw [hflipkeys]
                  exact hvals
                intro p hp q hq hpq
                have hfp := nodup_keys_eq hnd' (flipPair p)
                  (List.mem_map_of_mem flipPair hp) (flipPair q)
                  (List.mem_map_of_mem flipPair hq) hpq
                obtain ⟨a1, a2⟩ := p
                obtain ⟨b1, b2⟩ := q
                simp only [flipPair, Prod.mk.injEq] at hfp
                simp [hfp.1, hfp.2]
              have hiff : ∀ p ∈ r, ((p.1 = e) ↔ (p.2 = sig)) := by
                intro p hp
                constructor
                · intro h1
                  have hpeq := nodup_keys_eq hkeys p hp (e, sig) hpair h1
                  rw [hpeq]
                · intro h2
                  have hpeq := val_unique p hp (e, sig) hpair h2
                  rw [hpeq]
              have hc : codeReactionStep r (.remove sig) =
                  r.filter (fun p => p.1 ≠ e) := by
                simp [codeReactionStep, hlook]
              have hfc : r.filter (fun p => p.2 ≠ sig) =
                  r.filter (fun p => p.1 ≠ e) := by
                apply List.filter_congr
                intro p hp
                simp only [ne_eq, decide_eq_decide]
                exact not_congr (hiff p hp).symm
              have hm : modelReactionStep (r.map flipPair) (.remove sig) =
                  (r.filter (fun p => p.1 ≠ e)).map flipPair := by
                calc modelReactionStep (r.map flipPair) (.remove sig)
                    = (r.map flipPair).filter (fun q => q.1 ≠ sig) := rfl
                  _ = (r.filter (fun q => q.2 ≠ sig)).map flipPair :=
                      filter_flip r (fun v => decide (v ≠ sig))
                  _ = (r.filter (fun p => p.1 ≠ e)).map flipPair := by rw [hfc]
              rw [List.foldl_cons, List.foldl_cons, hm, hc]
              have hsub : (r.filter (fun p => p.1 ≠ e)).Sublist r := List.filter_sublist r
              refine ih _ hids ?_ ?_ ?_
              · intro e' he'
                have : e' ∈ r.map Prod.fst := (hsub.map Prod.fst).mem he'
                exact hfresh' e' this
              · exact (hsub.map Prod.fst).nodup hkeys
              · exact (hsub.map Prod.snd).nodup hvals

/-- C4: for every sequence of inbound reaction add/remove events in which each
remove is preceded by its matching add and the Matrix event ids assigned to
the relayed adds are distinct, the final `room.reactions` table is exactly the
reference-model map keyed by `(message-id, emoji-name, user-id)` (up to the
orientation of the bidict): the model map is the flipped reaction table, and
every signature lookup agrees between the two. -/
theorem reaction_table_matches_model (ops : List ReactionOp)
    (hids : (addEventIds ops).Nodup)
    (_hcov : removesCovered [] ops = true) :
    modelReactions ops = (codeReactions ops).map flipPair ∧
      ∀ sig, reactionsInv (codeReactions ops) sig = alookup (modelReactions ops) sig := by
  have h := reaction_refines_aux ops [] hids (by simp) (by simp) (by simp)
  refine ⟨by simpa [modelReactions, codeReactions] using h, ?_⟩
  intro sig
  rw [show modelReactions ops = (codeReactions ops).map flipPair by
    simpa [modelReactions, codeReactions] using h]
  rfl

/-- C4 witness: add two reactions to message 1, remove one of them. -/
theorem reaction_table_matches_model_witness :
    modelReactions [ReactionOp.add ⟨"1", "+1", "42"⟩ "$e1",
        ReactionOp.add ⟨"1", "smile", "42"⟩ "$e2",
        ReactionOp.remove ⟨"1", "+1", "42"⟩] =
      (codeReactions [ReactionOp.add ⟨"1", "+1", "42"⟩ "$e1",
        ReactionOp.add ⟨"1", "smile", "42"⟩ "$e2",
        ReactionOp.remove ⟨"1", "+1", "42"⟩]).map flipPair :=
  (reaction_table_matches_model _ (by decide) (by decide)).1

/-! ## C5 — unknown external redaction is logged and dropped

Embeds `ZulipEventHandler._handle_delete_message` together with the lookup
helpers `_get_room_by_stream_id` and `_get_mxid_from_zulip_id`, and the
catch-all `try`/`except` in `ZulipEventHandler.on_event` (zulip.py).

`StreamRoom` subclasses `DirectRoom`, so a stream room satisfies both
`isinstance(room, StreamRoom)` and `isinstance(room, DirectRoom)`.
-/

/-- Kind of a room held in `organization.rooms`. -/
inductive ZRoomKind where
  | stream (stream_id : Nat)
  | direct
deriving DecidableEq

/-- A room as seen by the Zulip event handler: its kind and its
`messages` table (zulip message id, as a string, to matrix event id). -/
structure ZRoom where
  kind : ZRoomKind
  messages : List (String × String)
deriving DecidableEq

/-- `isinstance(room, StreamRoom)`. -/
def isStreamRoom (r : ZRoom) : Bool :=
  match r.kind with
  | .stream _ => true
  | .direct => false

/-- A `delete_message` Zulip event; DM deletions carry no `stream_id` key. -/
structure DeleteEvent where
  stream_id : Option Nat
  message_id : Nat
deriving DecidableEq

/-- An outbound call enqueued by the handler (`room.redact`). -/
structure RedactCall where
  event_id : String
  reason : String
deriving DecidableEq

/-- `ZulipEventHandler._get_room_by_stream_id`. -/
def getRoomByStreamId (rooms : List ZRoom) (sid : Nat) : Option ZRoom :=
  rooms.find? (fun r =>
    match r.kind with
    | .stream s => s = sid
    | .direct => false)

/-- `ZulipEventHandler._get_mxid_from_zulip_id`: look the message id up in the
given room, or — when no room was given — scan every `DirectRoom` (which
includes every stream room). -/
def getMxidFromZulipId (zid : Nat) (room : Option ZRoom) (rooms : List ZRoom) :
    Option String :=
  match room with
  | some r => alookup r.messages (toString zid)
  | none =>
      match rooms with
      | [] => none
      | r :: rest =>
          match alookup r.messages (toString zid) with
          | some m => some m
          | none => getMxidFromZulipId zid none rest

/-- Remove a message id from the `messages` table of the first room matching
the stream id (`del room.messages[str(event["message_id"])]`). -/
def deleteFromRoom (rooms : List ZRoom) (sid : Nat) (mid : Nat) : List ZRoom :=
  match rooms with
  | [] => []
  | r :: rest =>
      match r.kind with
      | .stream s =>
          if s = sid then { r with messages := aerase r.messages (toString mid) } :: rest
          else r :: deleteFromRoom rest sid mid
      | .direct => r :: deleteFromRoom rest sid mid

/-- `ZulipEventHandler._handle_delete_message`: raises `KeyError` on a DM
deletion (`event["stream_id"]` is absent), raises `AttributeError` when no
stream room matches but some direct room knows the message id
(`room.redact` on `room = None`), drops the event when the message id is
unknown, and otherwise redacts and forgets the mapping. -/
def handleDeleteMessage (rooms : List ZRoom) (ev : DeleteEvent) :
    Except String (List ZRoom × List RedactCall) :=
  match ev.stream_id with
  | none => Except.error "KeyError"
  | some sid =>
      let room := getRoomByStreamId rooms sid
      match getMxidFromZulipId ev.message_id room rooms with
      | none => Except.ok (rooms, [])
      | some mxid =>
          match room with
          | none => Except.error "AttributeError"
          | some _ =>
              Except.ok (deleteFromRoom rooms sid ev.message_id,
                [{ event_id := mxid, reason := "Deleted on Zulip" }])

/-- `ZulipEventHandler.on_event` for a `delete_message` event: the handler
call is wrapped in `try`/`except Exception`, which logs and swallows any
exception. -/
def onZulipDeleteEvent (rooms : List ZRoom) (ev : DeleteEvent) :
    List ZRoom × List RedactCall :=
  match handleDeleteMessage rooms ev with
  | .ok res => res
  | .error _ => (rooms, [])

/-- C5: when a `delete_message` event arrives whose message id is not in the
target room's `messages` table (and, for DM deletions, no table at all can be
resolved), the event handler leaves every room's state unchanged, enqueues no
outbound redaction, and propagates no exception — `onZulipDeleteEvent` is a
total function returning the input state and an empty call list. -/
theorem delete_message_unknown_dropped (rooms : List ZRoom) (ev : DeleteEvent)
    (hunknown : ∀ sid, ev.stream_id = some sid →
      getMxidFromZulipId ev.message_id (getRoomByStreamId rooms sid) rooms = none) :
    onZulipDeleteEvent rooms ev = (rooms, []) := by
  unfold onZulipDeleteEvent handleDeleteMessage
  match hsid : ev.stream_id with
  | none => rfl
  | some sid =>
      have h := hunknown sid hsid
      simp [h]

/-- C5 witness: zulip message "555" deleted in stream 1, whose room only knows
message "1". -/
theorem delete_message_unknown_dropped_witness :
    onZulipDeleteEvent [{ kind := .stream 1, messages := [("1", "$m1")] }]
        { stream_id := some 1, message_id := 555 } =
      ([{ kind := .stream 1, messages := [("1", "$m1")] }], []) :=
  delete_message_unknown_dropped _ _ (by decide)

/-! ## C6 — first message on a new topic synthesizes the thread root

Embeds `Room.send_message`, `Room._ensure_thread_for_topic` and the
message-event branch of `Room._flush_event` (room.py), specialized to
`m.room.message` events carrying `lv.shema.zulipbridge` bridge data.
Matrix event ids returned by `intent.send_message_event` are generated from a
counter.
-/

/-- The `lv.shema.zulipbridge` custom data attached to relayed messages. -/
structure BridgeData where
  btype : String
  target : String
  zulip_topic : String
  zulip_message_id : Nat
  reply_to : Option Nat
deriving DecidableEq

/-- The `m.relates_to` content of an event, as manipulated by `_flush_event`. -/
structure MxRelation where
  rel_type : String
  event_id : Nat
  is_falling_back : Bool
  in_reply_to : Option Nat
deriving DecidableEq

/-- A queued `m.room.message` event (`Room.send_message` event dict). -/
structure QMsgEvent where
  body : String
  user_id : Option String
  bridge : Option BridgeData
  relates : Option MxRelation
deriving DecidableEq

/-- An event actually sent to Matrix, with its assigned event id. -/
structure SentEvent where
  event_id : Nat
  body : String
  user_id : Option String
  relates : Option MxRelation
deriving DecidableEq

/-- The room state touched by the send/flush path: the `threads` bidict
(topic name to thread-root event id), `thread_last_message`, the `messages`
table, the event queue, the events sent to Matrix, and the id counter. -/
structure ThreadRoomState where
  threads : List (String × Nat)
  thread_last_message : List (Nat × Nat)
  messages : List (String × Nat)
  queue : List QMsgEvent
  sent : List SentEvent
  nextId : Nat
deriving DecidableEq

/-- `Room._ensure_thread_for_topic`: if the topic already has a thread, do
nothing; else enqueue a topic-announcement message (body is the topic name,
bridge data retyped to `"topic"`). -/
def ensureThreadForTopic (st : ThreadRoomState) (bd : BridgeData)
    (uid : Option String) : ThreadRoomState :=
  if (alookup st.threads bd.zulip_topic).isSome then st
  else
    { st with queue := st.queue ++
        [{ body := bd.zulip_topic, user_id := uid,
           bridge := some { bd with btype := "topic" }, relates := none }] }

/-- `Room.send_message` with `custom_data`: for a stream message it first
ensures the topic thread, then enqueues the real message. -/
def sendMessage (st : ThreadRoomState) (text : String) (uid : Option String)
    (custom : Option BridgeData) : ThreadRoomState :=
  let ev : QMsgEvent := { body := text, user_id := uid, bridge := custom, relates := none }
  let st1 :=
    match custom with
    | some bd =>
        if bd.btype = "message" ∧ bd.target = "stream" then
          ensureThreadForTopic st bd uid
        else st
    | none => st
  { st1 with queue := st1.queue ++ [ev] }

/-- The message-event branch of `Room._flush_event` for `m.room.message`
events with bridge data (thread attachment, reply fallback, topic
deduplication, send, `thread_last_message`/`messages`/`threads` updates). -/
def flushMsgEvent (st : ThreadRoomState) (ev : QMsgEvent) : ThreadRoomState :=
  let bd? := ev.bridge
  -- stream messages must point at their topic's thread root
  let attach :
      Option (Option MxRelation) :=
    match bd? with
    | some bd =>
        if bd.btype = "message" ∧ bd.target = "stream" then
          match alookup st.threads bd.zulip_topic with
          | none => none -- "Thread not created for topic" — drop the event
          | some tid =>
              some (some ⟨"m.thread", tid,
                (alookup st.thread_last_message tid).isSome,
                alookup st.thread_last_message tid⟩)
        else some ev.relates
    | none => some ev.relates
  match attach with
  | none => st
  | some rel0 =>
      -- reply fallback (`bridge_data.get("reply_to") is not None`)
      let rel :=
        match bd? with
        | some bd =>
            match bd.reply_to with
            | some rid =>
                match rel0 with
                | some r => some { r with is_falling_back := false, in_reply_to := some rid }
                | none => some ⟨"", 0, false, some rid⟩
            | none => rel0
        | none => rel0
      -- "Skip creating a new thread if it already exists"
      let skipTopic : Bool :=
        match bd? with
        | some bd => bd.btype == "topic" && (alookup st.threads bd.zulip_topic).isSome
        | none => false
      if skipTopic then st
      else
        let eid := st.nextId
        let st1 := { st with
          sent := st.sent ++ [⟨eid, ev.body, ev.user_id, rel⟩],
          nextId := st.nextId + 1 }
        let st2 :=
          match rel with
          | some r =>
              if r.rel_type = "m.thread" then
                { st1 with thread_last_message := aupsert st1.thread_last_message r.event_id eid }
              else st1
          | none => st1
        match bd? with
        | some bd =>
            if bd.btype = "message" then
              { st2 with messages := aupsert st2.messages (toString bd.zulip_message_id) eid }
            else if bd.btype = "topic" then
              { st2 with threads := aupsert st2.threads bd.zulip_topic eid }
            else st2
        | none => st2

/-- Flush the whole queue in FIFO order (`_flush_events` on the batch handed
over by the `EventQueue`). -/
def flushThreadQueue (st : ThreadRoomState) : ThreadRoomState :=
  st.queue.foldl flushMsgEvent { st with queue := [] }

/-- C6: sending a stream message for a topic with no thread yet enqueues
exactly two events — first the topic announcement, then the real message —
and after the queue flushes, `threads[topic]` is the (non-null) event id of
the announcement and the real message was sent with an `m.thread` relation to
exactly that id. -/
theorem send_message_new_topic (st : ThreadRoomState) (text : String)
    (uid : Option String) (bd : BridgeData)
    (hmsg : bd.btype = "message") (htgt : bd.target = "stream")
    (hreply : bd.reply_to = none)
    (hnew : alookup st.threads bd.zulip_topic = none)
    (hfresh : alookup st.thread_last_message st.nextId = none)
    (hq : st.queue = []) :
    (sendMessage st text uid (some bd)).queue =
        [{ body := bd.zulip_topic, user_id := uid,
           bridge := some { bd with btype := "topic" }, relates := none },
         { body := text, user_id := uid, bridge := some bd, relates := none }] ∧
      alookup (flushThreadQueue (sendMessage st text uid (some bd))).threads
          bd.zulip_topic = some st.nextId ∧
      (flushThreadQueue (sendMessage st text uid (some bd))).sent =
        st.sent ++
          [{ event_id := st.nextId, body := bd.zulip_topic, user_id := uid, relates := none },
           { event_id := st.nextId + 1, body := text, user_id := uid,
             relates := some ⟨"m.thread", st.nextId, false, none⟩ }] := by
  have hq1 : (sendMessage st text uid (some bd)).queue =
      [{ body := bd.zulip_topic, user_id := uid,
         bridge := some { bd with btype := "topic" }, relates := none },
       { body := text, user_id := uid, bridge := some bd, relates := none }] := by
    simp [sendMessage, ensureThreadForTopic, hmsg, htgt, hnew, hq]
  refine ⟨hq1, ?_⟩
  have hst1 : sendMessage st text uid (some bd) =
      { st with queue :=
        [{ body := bd.zulip_topic, user_id := uid,
           bridge := some { bd with btype := "topic" }, relates := none },
         { body := text, user_id := uid, bridge := some bd, relates := none }] } := by
    simp [sendMessage, ensureThreadForTopic, hmsg, htgt, hnew, hq]
  rw [hst1]
  -- flush the topic announcement
  have htopicne : ¬ ("topic" = "message") := by decide
  have hflush1 : flushMsgEvent { st with queue := [] }
      { body := bd.zulip_topic, user_id := uid,
        bridge := some { bd with btype := "topic" }, relates := none } =
      { st with
        queue := [],
        sent := st.sent ++ [⟨st.nextId, bd.zulip_topic, uid, none⟩],
        nextId := st.nextId + 1,
        threads := aupsert st.threads bd.zulip_topic st.nextId } := by
    simp [flushMsgEvent, hmsg, htgt, hreply, hnew, htopicne]
  -- flush the real message
  have hlook2 : alookup (aupsert st.threads bd.zulip_topic st.nextId) bd.zulip_topic =
      some st.nextId := alookup_aupsert _ _ _
  have hflush2 : flushMsgEvent
      { st with
        queue := [],
        sent := st.sent ++ [⟨st.nextId, bd.zulip_topic, uid, none⟩],
        nextId := st.nextId + 1,
        threads := aupsert st.threads bd.zulip_topic st.nextId }
      { body := text, user_id := uid, bridge := some bd, relates := none } =
      { st with
        queue := [],
        sent := st.sent ++
          [{ event_id := st.nextId, body := bd.zulip_topic, user_id := uid, relates := none },
           { event_id := st.nextId + 1, body := text, user_id := uid,
             relates := some ⟨"m.thread", st.nextId, false, none⟩ }],
        nextId := st.nextId + 2,
        threads := aupsert st.threads bd.zulip_topic st.nextId,
        thread_last_message := aupsert st.thread_last_message st.nextId (st.nextId + 1),
        messages := aupsert st.messages (toString bd.zulip_message_id) (st.nextId + 1) } := by
    simp [flushMsgEvent, hmsg, htgt, hreply, hlook2, hfresh]
  rw [show flushThreadQueue { st with queue :=
      [{ body := bd.zulip_topic, user_id := uid,
         bridge := some { bd with btype := "topic" }, relates := none },
       { body := text, user_id := uid, bridge := some bd, relates := none }] } =
      flushMsgEvent (flushMsgEvent { st with queue := [] }
        { body := bd.zulip_topic, user_id := uid,
          bridge := some { bd with btype := "topic" }, relates := none })
        { body := text, user_id := uid, bridge := some bd, relates := none } from rfl]
  rw [hflush1, hflush2]
  exact ⟨hlook2, rfl⟩

/-- C6 witness: first message on topic "general" in a fresh room. -/
theorem send_message_new_topic_witness :
    alookup (flushThreadQueue (sendMessage ⟨[], [], [], [], [], 0⟩
        "hello" (some "@alice")
        (some ⟨"message", "stream", "general", 7, none⟩))).threads
        "general" = some 0 :=
  (send_message_new_topic _ "hello" (some "@alice") _
    rfl rfl rfl (by decide) (by decide) rfl).2.1

/-! ## C7 — StreamRoom member sync

Embeds `StreamRoom.sync_zulip_members` (stream_room.py) together with
`_add_puppet` / `_remove_puppet` and the `_join` / `_leave` branches of
`Room._flush_event` (room.py).

Matrix user ids are embedded as an inductive type: `MxId.puppet z` stands for
the bridge-generated puppet mxid
`@<puppet_prefix><org><sep><z>:<server>` returned by
`get_mxid_from_zulip_user_id` (that map is injective in `z`), and
`MxId.user n` for every other mxid.  The
`name.startswith("@" + puppet_prefix) and server == server_name` test of
`sync_zulip_members` distinguishes exactly these two shapes.
-/

inductive MxId where
  | puppet (zid : Nat)
  | user (name : String)
deriving DecidableEq

/-- The puppet test applied to each member in `sync_zulip_members`. -/
def isPuppetMember : MxId → Bool
  | .puppet _ => true
  | .user _ => false

/-- Events enqueued on the room's `EventQueue` by the sync. -/
inductive SyncEvent where
  | ensureZulip (zid : Nat)
  | join (mx : MxId) (nick : Option String)
  | leave (mx : MxId) (reason : Option String)
deriving DecidableEq

/-- The `StreamRoom` state touched by member sync. -/
structure SyncRoom where
  members : List MxId
  lazy_members : Option (List (MxId × Nat))
  member_sync : String
  user_id : MxId
  serv_user_id : MxId
  profile_user_id : Nat
  queue : List SyncEvent
deriving DecidableEq

/-- One iteration of the `for zulip_user_id in subscribers` loop of
`sync_zulip_members`, acting on `(to_remove, to_add, lazy_members)`. -/
def subStep (room : SyncRoom)
    (acc : List MxId × List (MxId × Nat) × Option (List (MxId × Nat)))
    (zid : Nat) :
    List MxId × List (MxId × Nat) × Option (List (MxId × Nat)) :=
  let (to_remove, to_add, lazy) := acc
  let mx := MxId.puppet zid
  -- make sure this user is not removed from room
  if mx ∈ to_remove then (to_remove.erase mx, to_add, lazy)
  -- ignore adding us here, only lazy join on echo allowed
  else if zid = room.profile_user_id then (to_remove, to_add, lazy)
  else
    let to_add' := if mx ∈ room.members then to_add else to_add ++ [(mx, zid)]
    let lazy' :=
      match lazy with
      | some l => some (aupsert l mx zid)
      | none => none
    (to_remove, to_add', lazy')

/-- `_add_puppet` enqueues an `_ensure_zulip_user_id` and a `_join` per added
subscriber, in `to_add` order. -/
def joinEvents : List (MxId × Nat) → List SyncEvent
  | [] => []
  | p :: rest => SyncEvent.ensureZulip p.2 :: SyncEvent.join p.1 none :: joinEvents rest

/-- `_remove_puppet` skips the appservice and the owning user, else enqueues a
`_leave` with the unsubscribe reason. -/
def leaveEvents (serv usr : MxId) : List MxId → List SyncEvent
  | [] => []
  | mx :: rest =>
      if mx = serv ∨ mx = usr then leaveEvents serv usr rest
      else SyncEvent.leave mx (some "Unsubcribed from stream") :: leaveEvents serv usr rest

/-- `StreamRoom.sync_zulip_members(subscribers)`: reset the lazy list, build
`to_remove` from the room's own puppets, reconcile against the subscriber
list, protect the appservice and the owning user, then enqueue joins and
leaves. -/
def syncZulipMembers (room : SyncRoom) (subscribers : List Nat) : SyncRoom :=
  -- always reset lazy list because it can be toggled on-the-fly
  let lazy0 : Option (List (MxId × Nat)) :=
    if room.member_sync ≠ "off" then some [] else none
  -- build to_remove list from our own puppets
  let tr0 := room.members.filter isPuppetMember
  let res := subscribers.foldl (subStep room) (tr0, [], lazy0)
  -- never remove us or appservice
  let to_remove := (res.1.erase room.serv_user_id).erase room.user_id
  let q := room.queue ++ joinEvents res.2.1 ++
    leaveEvents room.serv_user_id room.user_id to_remove
  { room with queue := q, lazy_members := res.2.2 }

/-- The `_join` / `_leave` / `_ensure_zulip_user_id` branches of
`Room._flush_event`. -/
def syncFlushEvent (room : SyncRoom) (ev : SyncEvent) : SyncRoom :=
  match ev with
  | .ensureZulip _ => room
  | .join mx _ =>
      if mx ∈ room.members then room
      else { room with members := room.members ++ [mx] }
  | .leave mx _ =>
      let room1 :=
        match room.lazy_members with
        | some l =>
            if (alookup l mx).isSome then { room with lazy_members := some (aerase l mx) }
            else room
        | none => room
      if mx ∈ room1.members then { room1 with members := room1.members.erase mx }
      else room1

/-- Flush the room's whole queue in FIFO order. -/
def syncFlushAll (room : SyncRoom) : SyncRoom :=
  room.queue.foldl syncFlushEvent { room with queue := [] }

theorem subLoop_spec (room : SyncRoom) (S : List Nat) :
    ∀ (tr : List MxId) (ta : List (MxId × Nat)) (lz : Option (List (MxId × Nat))),
      S.Nodup → room.profile_user_id ∉ S → tr.Nodup →
      (∀ z ∈ S, (MxId.puppet z ∈ tr ↔ MxId.puppet z ∈ room.members)) →
      (∀ mx, mx ∈ (S.foldl (subStep room) (tr, ta, lz)).1 ↔
          (mx ∈ tr ∧ ∀ z ∈ S, mx ≠ MxId.puppet z)) ∧
        (S.foldl (subStep room) (tr, ta, lz)).1.Nodup ∧
        (S.foldl (subStep room) (tr, ta, lz)).2.1.map Prod.fst =
          ta.map Prod.fst ++
            (S.filter (fun z => decide (MxId.puppet z ∉ room.members))).map MxId.puppet := by
  induction S with
  | nil =>
      intro tr ta lz _ _ htr _
      exact ⟨by simp, htr, by simp⟩
  | cons z S' ih =>
      intro tr ta lz hS hprof htr hcouple
      simp only [List.nodup_cons] at hS
      simp only [List.mem_cons, not_or] at hprof
      have hcz := hcouple z (List.mem_cons_self _ _)
      by_cases hmem : MxId.puppet z ∈ tr
      · have hstep : subStep room (tr, ta, lz) z = (tr.erase (MxId.puppet z), ta, lz) := by
          simp [subStep, hmem]
        rw [List.foldl_cons, hstep]
        have hcouple' : ∀ z' ∈ S', (MxId.puppet z' ∈ tr.erase (MxId.puppet z) ↔
            MxId.puppet z' ∈ room.members) := by
          intro z' hz'
          have hne : z' ≠ z := fun h => hS.1 (h ▸ hz')
          rw [htr.mem_erase_iff]
          constructor
          · intro h
            exact (hcouple z' (List.mem_cons_of_mem _ hz')).mp h.2
          · intro h
            exact ⟨by simp [hne], (hcouple z' (List.mem_cons_of_mem _ hz')).mpr h⟩
        obtain ⟨h1, h2, h3⟩ := ih (tr.erase (MxId.puppet z)) ta lz hS.2 hprof.2
          (htr.erase _) hcouple'
        refine ⟨?_, h2, ?_⟩
        · intro mx
          rw [h1 mx, htr.mem_erase_iff]
          simp only [List.mem_cons, forall_eq_or_imp]
          tauto
        · rw [h3]
          have hz : MxId.puppet z ∈ room.members := hcz.mp hmem
          simp [List.filter_cons, hz]
      · have hne : ¬ z = room.profile_user_id := fun h => hprof.1 h.symm
        have hnm : MxId.puppet z ∉ room.members := fun h => hmem (hcz.mpr h)
        have hstep : subStep room (tr, ta, lz) z =
            (tr, ta ++ [(MxId.puppet z, z)],
              match lz with
              | some l => some (aupsert l (MxId.puppet z) z)
              | none => none) := by
          simp [subStep, hmem, hne, hnm]
        rw [List.foldl_cons, hstep]
        have hcouple' : ∀ z' ∈ S', (MxId.puppet z' ∈ tr ↔
            MxId.puppet z' ∈ room.members) := fun z' hz' =>
          hcouple z' (List.mem_cons_of_mem _ hz')
        obtain ⟨h1, h2, h3⟩ := ih tr (ta ++ [(MxId.puppet z, z)]) _ hS.2 hprof.2 htr hcouple'
        refine ⟨?_, h2, ?_⟩
        · intro mx
          rw [h1 mx]
          simp only [List.mem_cons, forall_eq_or_imp]
          constructor
          · intro ⟨ha, hb⟩
            exact ⟨ha, fun heq => hmem (heq ▸ ha), hb⟩
          · intro ⟨ha, _, hb⟩
            exact ⟨ha, hb⟩
        · rw [h3]
          simp [List.filter_cons, hnm]

theorem syncFlushEvent_leave_members (r : SyncRoom) (mx : MxId) (rsn : Option String) :
    (syncFlushEvent r (.leave mx rsn)).members =
      if mx ∈ r.members then r.members.erase mx else r.members := by
  unfold syncFlushEvent
  match h : r.lazy_members with
  | some l =>
      by_cases hl : (alookup l mx).isSome <;> by_cases hm : mx ∈ r.members <;>
        simp [h, hl, hm]
  | none =>
      by_cases hm : mx ∈ r.members <;> simp [h, hm]

theorem syncFlushEvent_join_members (r : SyncRoom) (mx : MxId) (nick : Option String) :
    (syncFlushEvent r (.join mx nick)).members =
      if mx ∈ r.members then r.members else r.members ++ [mx] := by
  unfold syncFlushEvent
  by_cases hm : mx ∈ r.members <;> simp [hm]

theorem flush_joins (pairs : List (MxId × Nat)) :
    ∀ r : SyncRoom,
      (∀ m, m ∈ ((joinEvents pairs).foldl syncFlushEvent r).members ↔
          m ∈ r.members ∨ m ∈ pairs.map Prod.fst) ∧
        (r.members.Nodup → ((joinEvents pairs).foldl syncFlushEvent r).members.Nodup) ∧
        ((joinEvents pairs).foldl syncFlushEvent r).lazy_members = r.lazy_members := by
  induction pairs with
  | nil => intro r; exact ⟨by simp [joinEvents], fun h => h, rfl⟩
  | cons p rest ih =>
      intro r
      have hens : syncFlushEvent r (.ensureZulip p.2) = r := rfl
      rw [joinEvents, List.foldl_cons, List.foldl_cons, hens]
      by_cases hm : p.1 ∈ r.members
      · have hj : syncFlushEvent r (.join p.1 none) = r := by
          unfold syncFlushEvent
          simp [hm]
        rw [hj]
        obtain ⟨h1, h2, h3⟩ := ih r
        refine ⟨?_, h2, h3⟩
        intro m
        rw [h1 m]
        simp only [List.map_cons, List.mem_cons]
        constructor
        · tauto
        · rintro (h | h | h)
          · exact Or.inl h
          · exact Or.inl (h ▸ hm)
          · exact Or.inr h
      · have hj : syncFlushEvent r (.join p.1 none) =
            { r with members := r.members ++ [p.1] } := by
          unfold syncFlushEvent
          simp [hm]
        rw [hj]
        obtain ⟨h1, h2, h3⟩ := ih { r with members := r.members ++ [p.1] }
        refine ⟨?_, ?_, h3⟩
        · intro m
          rw [h1 m]
          simp only [List.mem_append, List.mem_singleton, List.map_cons, List.mem_cons]
          tauto
        · intro hnd
          apply h2
          simp only [List.nodup_append, List.nodup_cons]
          exact ⟨hnd, by simp, by simpa using hm⟩

theorem flush_leaves (lvs : List SyncEvent)
    (hlv : ∀ ev ∈ lvs, ∃ mx rsn, ev = SyncEvent.leave mx rsn) :
    ∀ r : SyncRoom, r.members.Nodup →
      (∀ m, m ∈ (lvs.foldl syncFlushEvent r).members ↔
          m ∈ r.members ∧ ∀ mx rsn, SyncEvent.leave mx rsn ∈ lvs → m ≠ mx) ∧
        (lvs.foldl syncFlushEvent r).members.Nodup := by
  induction lvs with
  | nil =>
      intro r hnd
      exact ⟨by simp, hnd⟩
  | cons ev rest ih =>
      intro r hnd
      obtain ⟨mx, rsn, rfl⟩ := hlv ev (List.mem_cons_self _ _)
      have hrest : ∀ ev ∈ rest, ∃ mx rsn, ev = SyncEvent.leave mx rsn :=
        fun ev h => hlv ev (List.mem_cons_of_mem _ h)
      rw [List.foldl_cons]
      have hmembers := syncFlushEvent_leave_members r mx rsn
      have hmem1 : ∀ m, m ∈ (syncFlushEvent r (.leave mx rsn)).members ↔
          m ∈ r.members ∧ m ≠ mx := by
        intro m
        rw [hmembers]
        by_cases hm : mx ∈ r.members
        · simp only [if_pos hm, hnd.mem_erase_iff]
          tauto
        · simp only [if_neg hm]
          constructor
          · intro h
            exact ⟨h, fun heq => hm (heq ▸ h)⟩
          · exact fun h => h.1
      have hnd1 : (syncFlushEvent r (.leave mx rsn)).members.Nodup := by
        rw [hmembers]
        by_cases hm : mx ∈ r.members
        · simp only [if_pos hm]
          exact hnd.erase _
        · simpa [hm] using hnd
      obtain ⟨h1, h2⟩ := ih hrest (syncFlushEvent r (.leave mx rsn)) hnd1
      refine ⟨?_, h2⟩
      intro m
      rw [h1 m, hmem1 m]
      constructor
      · rintro ⟨⟨hmem, hne⟩, hall⟩
        refine ⟨hmem, ?_⟩
        intro mx' rsn' hmem'
        rcases List.mem_cons.mp hmem' with h | h
        · cases h
          exact hne
        · exact hall mx' rsn' h
      · rintro ⟨hmem, hall⟩
        refine ⟨⟨hmem, hall mx rsn (List.mem_cons_self _ _)⟩, ?_⟩
        intro mx' rsn' h
        exact hall mx' rsn' (List.mem_cons_of_mem _ h)

theorem leaveEvents_eq_map (serv usr : MxId) (l : List MxId)
    (h : ∀ mx ∈ l, mx ≠ serv ∧ mx ≠ usr) :
    leaveEvents serv usr l =
      l.map (fun mx => SyncEvent.leave mx (some "Unsubcribed from stream")) := by
  induction l with
  | nil => rfl
  | cons mx rest ih =>
      have hmx := h mx (List.mem_cons_self _ _)
      rw [leaveEvents, if_neg (by tauto), List.map_cons,
        ih (fun mx' h' => h mx' (List.mem_cons_of_mem _ h'))]

/-- C7 (amended): in `full` member-sync mode, for a duplicate-free member list
and a duplicate-free subscriber set `S` that does not contain the
organization's own Zulip user id, after `sync_zulip_members(S)` and the flush
of its enqueued joins and leaves: the puppet members are exactly the puppets
of `S`, the member list stays duplicate-free, and non-puppet members —
including the appservice and the owning user — are exactly those of before. -/
theorem sync_zulip_members_amended (room : SyncRoom) (S : List Nat)
    (_hfull : room.member_sync = "full")
    (hnd : room.members.Nodup)
    (hS : S.Nodup)
    (hprof : room.profile_user_id ∉ S)
    (hserv : isPuppetMember room.serv_user_id = false)
    (husr : isPuppetMember room.user_id = false)
    (hq : room.queue = []) :
    (∀ z : Nat,
        MxId.puppet z ∈ (syncFlushAll (syncZulipMembers room S)).members ↔ z ∈ S) ∧
      (syncFlushAll (syncZulipMembers room S)).members.Nodup ∧
      (∀ m : MxId, isPuppetMember m = false →
        (m ∈ (syncFlushAll (syncZulipMembers room S)).members ↔ m ∈ room.members)) := by
  -- the initial removal candidates: the room's own puppets
  set tr0 := room.members.filter isPuppetMember with htr0
  have htr0nd : tr0.Nodup := hnd.filter _
  have htr0mem : ∀ mx, mx ∈ tr0 ↔ mx ∈ room.members ∧ isPuppetMember mx = true := by
    intro mx
    rw [htr0, List.mem_filter]
  have hcouple : ∀ z ∈ S, (MxId.puppet z ∈ tr0 ↔ MxId.puppet z ∈ room.members) := by
    intro z _
    rw [htr0mem]
    simp [isPuppetMember]
  obtain ⟨hrm, hrmnd, haddfst⟩ :=
    subLoop_spec room S tr0 [] (if room.member_sync ≠ "off" then some [] else none)
      hS hprof htr0nd hcouple
  set res := S.foldl (subStep room)
    (tr0, [], if room.member_sync ≠ "off" then some [] else none) with hres
  -- the two protective erases do nothing: the appservice and owner are not puppets
  have hservnot : room.serv_user_id ∉ res.1 := by
    intro h
    have := ((htr0mem _).mp ((hrm _).mp h).1).2
    rw [hserv] at this
    exact Bool.false_ne_true this
  have husrnot : room.user_id ∉ res.1 := by
    intro h
    have := ((htr0mem _).mp ((hrm _).mp h).1).2
    rw [husr] at this
    exact Bool.false_ne_true this
  have herase : (res.1.erase room.serv_user_id).erase room.user_id = res.1 := by
    rw [List.erase_of_not_mem hservnot, List.erase_of_not_mem husrnot]
  -- every leave candidate is a puppet, hence neither appservice nor owner
  have hlv : ∀ mx ∈ res.1, mx ≠ room.serv_user_id ∧ mx ≠ room.user_id := by
    intro mx hmx
    constructor
    · intro heq
      exact hservnot (heq ▸ hmx)
    · intro heq
      exact husrnot (heq ▸ hmx)
  have hqueue0 : (syncZulipMembers room S).queue =
      room.queue ++ joinEvents res.2.1 ++
        leaveEvents room.serv_user_id room.user_id
          ((res.1.erase room.serv_user_id).erase room.user_id) := rfl
  have hqueue : (syncZulipMembers room S).queue =
      joinEvents res.2.1 ++
        res.1.map (fun mx => SyncEvent.leave mx (some "Unsubcribed from stream")) := by
    rw [hqueue0, hq, herase, leaveEvents_eq_map _ _ _ hlv]
    simp
  have hmembers0 : (syncZulipMembers room S).members = room.members := rfl
  -- flush: first the joins, then the leaves
  rw [show syncFlushAll (syncZulipMembers room S) =
      ((syncZulipMembers room S).queue.foldl syncFlushEvent
        { syncZulipMembers room S with queue := [] }) from rfl, hqueue,
    List.foldl_append]
  set r0 : SyncRoom := { syncZulipMembers room S with queue := [] } with hr0
  have hr0mem : r0.members = room.members := rfl
  obtain ⟨hj1, hj2, _⟩ := flush_joins res.2.1 r0
  set r1 := (joinEvents res.2.1).foldl syncFlushEvent r0 with hr1
  have hr1nd : r1.members.Nodup := hj2 (hr0mem ▸ hnd)
  obtain ⟨hl1, hl2⟩ := flush_leaves
    (res.1.map (fun mx => SyncEvent.leave mx (some "Unsubcribed from stream")))
    (by
      intro ev hev
      simp only [List.mem_map] at hev
      obtain ⟨mx, _, rfl⟩ := hev
      exact ⟨mx, some "Unsubcribed from stream", rfl⟩)
    r1 hr1nd
  have hleavemem : ∀ (mx : MxId) (rsn : Option String),
      (SyncEvent.leave mx rsn ∈
        res.1.map (fun mx => SyncEvent.leave mx (some "Unsubcribed from stream"))) ↔
      (mx ∈ res.1 ∧ rsn = some "Unsubcribed from stream") := by
    intro mx rsn
    simp only [List.mem_map, SyncEvent.leave.injEq]
    constructor
    · rintro ⟨mx', hmx', h1, h2⟩
      exact ⟨h1 ▸ hmx', h2.symm⟩
    · rintro ⟨hmx, rfl⟩
      exact ⟨mx, hmx, rfl, rfl⟩
  refine ⟨?_, hl2, ?_⟩
  · intro z
    rw [hl1 (MxId.puppet z)]
    constructor
    · rintro ⟨hin1, hnotlv⟩
      by_contra hzS
      -- a puppet surviving the leaves must not be a removal candidate
      have hnotrm : MxId.puppet z ∉ res.1 := by
        intro h
        exact hnotlv (MxId.puppet z) (some "Unsubcribed from stream")
          ((hleavemem (MxId.puppet z) _).mpr ⟨h, rfl⟩) rfl
      -- it was not added (additions are puppets of S)
      rw [hj1 (MxId.puppet z)] at hin1
      have hin : MxId.puppet z ∈ room.members := by
        rcases hin1 with h | h
        · exact hr0mem ▸ h
        · exfalso
          rw [haddfst] at h
          simp only [List.map_nil, List.nil_append, List.mem_map, List.mem_filter] at h
          obtain ⟨z', hz', heq⟩ := h
          cases heq
          exact hzS hz'.1
      -- so it is a stale puppet, which must be in the removal set
      apply hnotrm
      rw [hrm]
      refine ⟨(htr0mem _).mpr ⟨hin, rfl⟩, ?_⟩
      intro z' hz' heq
      cases heq
      exact hzS hz'
    · intro hzS
      constructor
      · rw [hj1 (MxId.puppet z)]
        by_cases hin : MxId.puppet z ∈ room.members
        · exact Or.inl (hr0mem ▸ hin)
        · refine Or.inr ?_
          rw [haddfst]
          simp only [List.map_nil, List.nil_append, List.mem_map, List.mem_filter]
          exact ⟨z, ⟨hzS, by simpa using hin⟩, rfl⟩
      · intro mx rsn hmem heq
        subst heq
        have hmx := ((hleavemem _ _).mp hmem).1
        have := ((hrm _).mp hmx).2 z hzS
        exact this rfl
  · intro m hm
    rw [hl1 m]
    have hnotrm : m ∉ res.1 := by
      intro h
      have := ((htr0mem _).mp ((hrm _).mp h).1).2
      rw [hm] at this
      exact Bool.false_ne_true this
    constructor
    · rintro ⟨hin1, _⟩
      rw [hj1 m] at hin1
      rcases hin1 with h | h
      · exact hr0mem ▸ h
      · exfalso
        rw [haddfst] at h
        simp only [List.map_nil, List.nil_append, List.mem_map, List.mem_filter] at h
        obtain ⟨z', _, heq⟩ := h
        rw [← heq] at hm
        simp [isPuppetMember] at hm
    · intro hin
      refine ⟨(hj1 m).mpr (Or.inl (hr0mem ▸ hin)), ?_⟩
      intro mx rsn hmem heq
      subst heq
      exact hnotrm ((hleavemem _ _).mp hmem).1

/-- C7 counterexample data: a stream room whose subscriber list contains only
the organization's own Zulip user id (id 7). -/
def c7Room : SyncRoom :=
  { members := [MxId.user "@zulipbridge:example.org", MxId.user "@owner:example.org"],
    lazy_members := none, member_sync := "full",
    user_id := MxId.user "@owner:example.org",
    serv_user_id := MxId.user "@zulipbridge:example.org",
    profile_user_id := 7, queue := [] }

/-- C7 counterexample: `7 ∈ S`, yet after the sync and flush the puppet for
Zulip user 7 is **not** a member — `sync_zulip_members` deliberately never
adds the organization's own Zulip user ("ignore adding us here"), so the
bridge-managed members do not equal `S` plus the always-kept accounts. -/
theorem sync_zulip_members_counterexample :
    (7 : Nat) ∈ [7] ∧
      MxId.puppet 7 ∉ (syncFlushAll (syncZulipMembers c7Room [7])).members := by
  refine ⟨by decide, by decide⟩

/-- C7 witness: syncing `S = [42]` into `c7Room` (whose own Zulip user is 7)
adds the puppet for Zulip user 42. -/
theorem sync_zulip_members_amended_witness :
    MxId.puppet 42 ∈ (syncFlushAll (syncZulipMembers c7Room [42])).members :=
  ((sync_zulip_members_amended c7Room [42] rfl (by decide) (by decide) (by decide)
    rfl rfl rfl).1 42).mpr (by decide)

/-! ## C8 — disconnect during backoff cancels the retry

Embeds the interaction between `OrganizationRoom.cmd_disconnect` and the
backoff wait at the bottom of `OrganizationRoom._connect`
(organization_room.py):

```
self.backoff_task = asyncio.ensure_future(asyncio.sleep(self.backoff))
try:
    await self.backoff_task
except asyncio.CancelledError:
    break
finally:
    self.backoff_task = None
...
self.send_notice("Connection aborted.")
```

The single-threaded event loop runs `cmd_disconnect` while `_connect` is
suspended at `await self.backoff_task`; `resumeBackoffWait` is what happens
when `_connect` is resumed.
-/

/-- The connection-machine state relevant to cancellation. -/
structure ConnTask where
  disconnect : Bool
  backoffTaskPending : Bool
  backoffCancelled : Bool
  backoff : Nat
  connected : Bool
deriving DecidableEq

/-- What the connect routine does upon resuming from `await backoff_task`:
a cancelled sleep raises `CancelledError`, which `break`s out of the retry
loop; a completed sleep re-checks `while not self.disconnect` and either
leaves the loop or performs the next connection attempt. -/
inductive ConnAction where
  | attempt
  | abortNotice
deriving DecidableEq

/-- Body of `OrganizationRoom.cmd_disconnect`: set the `disconnect` flag,
cancel and drop any pending backoff task, reset the backoff and the
connected flag. -/
def cmdDisconnect (s : ConnTask) : ConnTask :=
  { s with
    disconnect := true,
    backoffCancelled := s.backoffTaskPending,
    backoffTaskPending := false,
    backoff := 0,
    connected := false }

/-- Resumption of `_connect` from `await self.backoff_task`. -/
def resumeBackoffWait (s : ConnTask) : ConnTask × List ConnAction :=
  if s.backoffCancelled then
    -- CancelledError -> break -> "Connection aborted."
    ({ s with backoffTaskPending := false }, [ConnAction.abortNotice])
  else if s.disconnect then
    -- sleep finished; the `while not self.disconnect` guard ends the loop
    ({ s with backoffTaskPending := false }, [ConnAction.abortNotice])
  else
    -- sleep finished; the loop body tries to connect again
    ({ s with backoffTaskPending := false }, [ConnAction.attempt])

/-- C8: a disconnect issued while the connect routine waits out its backoff
sleep cancels the pending sleep task; on resumption the loop exits without
another connection attempt and leaves no scheduled retry behind. -/
theorem disconnect_cancels_backoff (s : ConnTask)
    (h : s.backoffTaskPending = true) :
    (resumeBackoffWait (cmdDisconnect s)).2 = [ConnAction.abortNotice] ∧
      ConnAction.attempt ∉ (resumeBackoffWait (cmdDisconnect s)).2 ∧
      (resumeBackoffWait (cmdDisconnect s)).1.backoffTaskPending = false ∧
      (resumeBackoffWait (cmdDisconnect s)).1.disconnect = true := by
  simp [cmdDisconnect, resumeBackoffWait, h]

/-- C8 witness: a connected room with a pending backoff sleep. -/
theorem disconnect_cancels_backoff_witness :
    (resumeBackoffWait (cmdDisconnect ⟨false, true, false, 5, true⟩)).2 =
      [ConnAction.abortNotice] :=
  (disconnect_cancels_backoff ⟨false, true, false, 5, true⟩ rfl).1

/-! ## C9 — invalidation after a membership change tears the room down

Embeds `Room._on_mx_room_member` (room.py) — the built-in membership handler,
which raises `RoomInvalidError` when removing a member leaves the room
invalid — and the dispatcher `BridgeAppService._on_mx_event` (__main__.py),
which catches `RoomInvalidError` specifically (unregister, cleanup, leave)
while swallowing generic handler exceptions.

`is_valid` is a virtual method, embedded as an explicit `valid` parameter.
-/

inductive MembershipKind where
  | join
  | leave
  | ban
  | invite
deriving DecidableEq

structure MemberEvent where
  membership : MembershipKind
  prev_membership : MembershipKind
  state_key : String
  displayname : Option String
deriving DecidableEq

/-- The membership-related room state. -/
structure MRoom where
  members : List String
  bans : List String
  displaynames : List (String × String)
deriving DecidableEq

inductive HandlerError where
  | roomInvalid
  | generic
deriving DecidableEq

/-- The unban/ban/join branches at the bottom of `_on_mx_room_member`. -/
def laterMemberBranches (ev : MemberEvent) (r : MRoom) : MRoom :=
  let r1 :=
    if ev.membership = MembershipKind.leave then
      (if ev.prev_membership = MembershipKind.ban then
        { r with bans := r.bans.erase ev.state_key }
      else r)
    else r
  let r2 :=
    if ev.membership = MembershipKind.ban then
      (if ev.state_key ∈ r1.bans then r1
       else { r1 with bans := r1.bans ++ [ev.state_key] })
    else r1
  if ev.membership = MembershipKind.join then
    let r3 :=
      if ev.state_key ∈ r2.members then r2
      else { r2 with members := r2.members ++ [ev.state_key] }
    match ev.displayname with
    | some d => { r3 with displaynames := aupsert r3.displaynames ev.state_key d }
    | none => { r3 with displaynames := aerase r3.displaynames ev.state_key }
  else r2

/-- `Room._on_mx_room_member`: a leave/ban of a current member removes it and
raises `RoomInvalidError` if the room is no longer valid. -/
def onMxRoomMember (valid : MRoom → Bool) (r : MRoom) (ev : MemberEvent) :
    Except HandlerError MRoom :=
  if (ev.membership = MembershipKind.leave ∨ ev.membership = MembershipKind.ban) ∧
      ev.state_key ∈ r.members then
    let r1 : MRoom := { r with
      members := r.members.erase ev.state_key,
      displaynames := aerase r.displaynames ev.state_key }
    if valid r1 then Except.ok (laterMemberBranches ev r1)
    else Except.error HandlerError.roomInvalid
  else Except.ok (laterMemberBranches ev r)

/-- `BridgeAppService._on_mx_event` for a membership event addressed to a
registered room: `RoomInvalidError` deregisters and tears the room down (the
returned flag), generic handler exceptions are logged and swallowed. -/
def dispatchMemberEvent (valid : MRoom → Bool) (registry : List (String × MRoom))
    (room_id : String) (ev : MemberEvent) : List (String × MRoom) × Bool :=
  match alookup registry room_id with
  | none => (registry, false)
  | some room =>
      match onMxRoomMember valid room ev with
      | .ok r' => (aupsert registry room_id r', false)
      | .error HandlerError.roomInvalid => (aerase registry room_id, true)
      | .error HandlerError.generic => (registry, false)

/-- C9: a leave/ban event that removes a member and leaves the room invalid
makes the built-in membership handler raise the distinct `RoomInvalidError`
signal, and the dispatcher — rather than swallowing it like generic handler
exceptions — deregisters the room and runs teardown. -/
theorem membership_invalidation_teardown (valid : MRoom → Bool)
    (registry : List (String × MRoom)) (room_id : String) (room : MRoom)
    (ev : MemberEvent)
    (hreg : alookup registry room_id = some room)
    (hmem : ev.membership = MembershipKind.leave ∨ ev.membership = MembershipKind.ban)
    (hin : ev.state_key ∈ room.members)
    (hinvalid : valid { room with
      members := room.members.erase ev.state_key,
      displaynames := aerase room.displaynames ev.state_key } = false) :
    onMxRoomMember valid room ev = Except.error HandlerError.roomInvalid ∧
      dispatchMemberEvent valid registry room_id ev = (aerase registry room_id, true) := by
  have h1 : onMxRoomMember valid room ev = Except.error HandlerError.roomInvalid := by
    unfold onMxRoomMember
    rw [if_pos ⟨hmem, hin⟩]
    simp [hinvalid]
  refine ⟨h1, ?_⟩
  unfold dispatchMemberEvent
  rw [hreg]
  simp only [h1]

/-- C9 witness: the appservice bot leaves a stream room whose validity
predicate requires the bot's membership. -/
theorem membership_invalidation_teardown_witness :
    dispatchMemberEvent (fun r => r.members.contains "@bot:hs")
        [("!r:hs", ⟨["@bot:hs"], [], []⟩)] "!r:hs"
        ⟨MembershipKind.leave, MembershipKind.join, "@bot:hs", none⟩ =
      (aerase [("!r:hs", ⟨["@bot:hs"], [], []⟩)] "!r:hs", true) :=
  (membership_invalidation_teardown (fun r => r.members.contains "@bot:hs")
    [("!r:hs", ⟨["@bot:hs"], [], []⟩)] "!r:hs" ⟨["@bot:hs"], [], []⟩
    ⟨MembershipKind.leave, MembershipKind.join, "@bot:hs", none⟩
    (by decide) (Or.inl rfl) (by decide) (by decide)).2

/-! ## C10 — `Room._flush_events` attempts every queued event

Embeds `Room._flush_events` (room.py):

```
for event in events:
    try:
        await self._flush_event(event)
    except Exception:
        logging.exception("Queued event failed")
```

`_flush_event` is a virtual method overridden by every room kind, embedded as
a parameter `f` that returns the next state plus the optionally raised (and
then logged) exception.
-/

/-- `Room._flush_events`: run the per-event handler on every event of the
batch, recording each event's outcome, never propagating. -/
def flushEventsLoop {σ ε : Type} (f : σ → ε → σ × Option String) (s : σ) :
    List ε → σ × List (ε × Option String)
  | [] => (s, [])
  | e :: rest =>
      let r := f s e
      let tail := flushEventsLoop f r.1 rest
      (tail.1, (e, r.2) :: tail.2)

/-- C10: for every batch handed over by the `EventQueue`, `_flush_events`
attempts every event of the batch in order — exceptions from one event are
caught and logged and the remaining events are still processed — and the
final state is the fold of the per-event handler over the whole batch; being
a total function, `_flush_events` itself propagates no exception. -/
theorem flush_events_attempts_all {σ ε : Type} (f : σ → ε → σ × Option String)
    (s : σ) (events : List ε) :
    ((flushEventsLoop f s events).2.map Prod.fst = events) ∧
      (flushEventsLoop f s events).1 = events.foldl (fun st e => (f st e).1) s := by
  induction events generalizing s with
  | nil => exact ⟨rfl, rfl⟩
  | cons e rest ih =>
      obtain ⟨h1, h2⟩ := ih (f s e).1
      exact ⟨by simp [flushEventsLoop, h1], by simp [flushEventsLoop, h2]⟩

end MZB
